import Mathlib

/-!
Verification development for the negative-prompting notebook
(`all_prompt_engineering_techniques/negative-prompting.ipynb`).

The core of the notebook is cell 10: an `evaluate_output` function applying a
mapping of named boolean constraint predicates to a response string, three
concrete constraints (`word_count`, `no_excluded_words`, `no_analogies`), and a
single refinement step guarded by `if not all(evaluation_results.values())`.

Strings are modelled as Lean `String` (a wrapper around `List Char`); the
character-level operations (`str.split()`, substring test via `in`,
`re.search` with a word-boundary regex) are embedded as recursive functions on
`List Char`.  Character classes follow the ASCII behaviour of the Python code
on the strings it is exercised with: `Char.isWhitespace` for `str.split()`,
and word characters `[A-Za-z0-9_]` for the regex `\b` boundary.
-/

namespace NegativePrompting

/-- A regex word character (`\w` over ASCII): letter, digit or underscore. -/
def isWordChar (c : Char) : Bool :=
  c.isAlpha || c.isDigit || c == '_'

/-! ### `str.split()` — whitespace-delimited words, empties dropped -/

/-- Helper for `splitWords`: `cur` holds the characters of the word currently
being read, in reverse. -/
def splitWordsAux : List Char → List Char → List (List Char)
  | cur, [] => if cur.isEmpty then [] else [cur.reverse]
  | cur, c :: cs =>
    if c.isWhitespace then
      if cur.isEmpty then splitWordsAux [] cs
      else cur.reverse :: splitWordsAux [] cs
    else splitWordsAux (c :: cur) cs

/-- Python `str.split()` with no separator: split on runs of whitespace,
discarding empty fragments. -/
def splitWords (s : List Char) : List (List Char) :=
  splitWordsAux [] s

/-! ### substring test — Python `needle in haystack` -/

/-- Python `w in l`: `w` occurs as a contiguous substring of `l`. -/
def containsSub (w : List Char) : List Char → Bool
  | [] => w.isEmpty
  | c :: cs => w.isPrefixOf (c :: cs) || containsSub w cs

/-- `x.lower()` character by character. -/
def lowerList (s : List Char) : List Char :=
  s.map Char.toLower

/-! ### `re.search(r"\b(as|like)\b", x, re.IGNORECASE)` -/

/-- Case-insensitive match of pattern `w` against the start of `s`; on success
returns the remaining suffix of `s`. -/
def stripCI : List Char → List Char → Option (List Char)
  | [], s => some s
  | _ :: _, [] => none
  | c :: cs, d :: ds => if d.toLower = c then stripCI cs ds else none

/-- `\b` immediately after a match: the rest of the input is empty or starts
with a non-word character.  (Both pattern alternatives end in a word
character.) -/
def boundaryAfter : List Char → Bool
  | [] => true
  | d :: _ => !(isWordChar d)

/-- Scan for a case-insensitive whole-word occurrence of `w`.  `atB` records
whether the current position sits at a `\b` boundary for a pattern starting
with a word character: true at the start of the string, and after any
non-word character. -/
def searchWordCI (w : List Char) : Bool → List Char → Bool
  | _, [] => false
  | atB, d :: ds =>
    (atB && (match stripCI w (d :: ds) with
             | some rest => boundaryAfter rest
             | none => false))
    || searchWordCI w (!(isWordChar d)) ds

/-- `re.search(r"\b" ++ w ++ r"\b", x, re.IGNORECASE)` for a pattern `w` made
of word characters, as a boolean. -/
def hasWholeWordCI (w x : String) : Bool :=
  searchWordCI (lowerList w.data) true x.data

/-! ### the three constraint lambdas of cell 10 -/

/-- `lambda x: len(x.split()) <= 100` -/
def word_count (x : String) : Bool :=
  (splitWords x.data).length ≤ 100

/-- The forbidden list of the `no_excluded_words` lambda:
`["robot", "human-like", "science fiction"]`. -/
def excludedWords : List String :=
  ["robot", "human-like", "science fiction"]

/-- `lambda x: all(word not in x.lower() for word in ["robot", "human-like",
"science fiction"])` -/
def no_excluded_words (x : String) : Bool :=
  excludedWords.all fun w => !(containsSub w.data (lowerList x.data))

/-- `lambda x: not re.search(r"\b(as|like)\b", x, re.IGNORECASE)` -/
def no_analogies (x : String) : Bool :=
  !(hasWholeWordCI "as" x || hasWholeWordCI "like" x)

/-! ### `evaluate_output` and the constraint set -/

/-- A constraint set: an ordered mapping from constraint name to predicate,
modelling the Python dict of lambdas. -/
abbrev ConstraintSet := List (String × (String → Bool))

/-- `evaluate_output(output, constraints)`: apply each predicate to the
output, keeping the constraint names. -/
def evaluate_output (output : String) (cs : ConstraintSet) :
    List (String × Bool) :=
  cs.map fun p => (p.1, p.2 output)

/-- The constraint dict of cell 10. -/
def constraints : ConstraintSet :=
  [("word_count", word_count),
   ("no_excluded_words", no_excluded_words),
   ("no_analogies", no_analogies)]

/-- `all(evaluation_results.values())` -/
def allPass (results : List (String × Bool)) : Bool :=
  results.all fun p => p.2

/-! ### the constraint prompt template and the refinement controller

Cells 8 and 10 drive a fixed scenario: render `constraint_prompt` with base
parameters, generate, evaluate, and — exactly when some constraint failed —
render once more with hard-coded adjusted parameters, generate and evaluate
again.  The language model is opaque; it is modelled as a function from the
call index to the response text, so the number of generation calls is
observable in the model. -/

/-- The parameter slots of `constraint_prompt`. -/
structure PromptParams where
  topic : String
  style : String
  excluded_words : String
  deriving DecidableEq, Repr

/-- `constraint_prompt.format(...)`: substitute the three slots into the
template text of cell 8. -/
def renderConstraintPrompt (p : PromptParams) : String :=
  "Write a " ++ p.style ++ " description of " ++ p.topic ++
  ".\n    Constraints:\n    1. Do not use any of these words: " ++
  p.excluded_words ++
  "\n    2. Keep the description under 100 words" ++
  "\n    3. Do not use analogies or metaphors" ++
  "\n    4. Focus only on factual information"

/-- The base parameters of the scenario (cell 8). -/
def baseParams : PromptParams :=
  { topic := "artificial intelligence"
    style := "technical"
    excluded_words := "robot, human-like, science fiction" }

/-- The hard-coded adjusted parameters of the refinement step (cell 10). -/
def refinedParams : PromptParams :=
  { topic := "artificial intelligence"
    style := "technical and concise"
    excluded_words := "robot, human-like, science fiction, like, as" }

/-- One render–generate–evaluate attempt: the rendered prompt, the model's
response, and its evaluation results. -/
structure Attempt where
  prompt : String
  response : String
  scores : List (String × Bool)
  deriving DecidableEq, Repr

/-- Result of one controller invocation: the initial attempt, the optional
refined attempt, and the number of generation-client calls issued. -/
structure CycleResult where
  initial : Attempt
  refined : Option Attempt
  genCalls : Nat
  deriving DecidableEq, Repr

/-- The controller of cells 8 and 10: evaluate the base response; if
`not all(evaluation_results.values())`, format `refined_prompt` with the
hard-coded adjusted parameters and run one more generate–evaluate pass.
`gen i` is the response returned by the language model on its `i`-th call. -/
def runNegativePromptCycle (gen : Nat → String) : CycleResult :=
  let p1 := renderConstraintPrompt baseParams
  let r1 := gen 0
  let e1 := evaluate_output r1 constraints
  if allPass e1 then
    { initial := ⟨p1, r1, e1⟩, refined := none, genCalls := 1 }
  else
    let p2 := renderConstraintPrompt refinedParams
    let r2 := gen 1
    let e2 := evaluate_output r2 constraints
    { initial := ⟨p1, r1, e1⟩, refined := some ⟨p2, r2, e2⟩, genCalls := 2 }

/-- Number of render–generate–evaluate attempts a cycle result holds. -/
def CycleResult.attemptCount (res : CycleResult) : Nat :=
  1 + (match res.refined with
       | none => 0
       | some _ => 1)

/-! ### declarative (specification-side) predicates -/

/-- `w` occurs as a case-insensitive substring of response `r`: the lowered
form of `w` is a contiguous substring of the lowered form of `r`. -/
def CISubstrOccurs (w r : String) : Prop :=
  ∃ pre post, lowerList r.data = pre ++ lowerList w.data ++ post

/-- A case-insensitive whole-word occurrence of `w` (a lower-case pattern of
word characters) in `s`: a contiguous segment whose lowering is `w`, preceded
by nothing or a non-word character and followed by nothing or a non-word
character — the regex `\b...\b` boundary conditions. -/
def WholeWordCI (w : List Char) (s : List Char) : Prop :=
  ∃ pre mid post, s = pre ++ mid ++ post ∧ mid.map Char.toLower = w ∧
    (pre = [] ∨ ∃ p, pre.getLast? = some p ∧ isWordChar p = false) ∧
    (∀ q, post.head? = some q → isWordChar q = false)

/-- Loop invariant of `searchWordCI`: like `WholeWordCI`, but a match at the
very start of `s` is admissible only when the scan flag `atB` is set. -/
def SearchSpec (w : List Char) (atB : Bool) (s : List Char) : Prop :=
  ∃ pre mid post, s = pre ++ mid ++ post ∧ mid.map Char.toLower = w ∧
    ((pre = [] ∧ atB = true) ∨ ∃ p, pre.getLast? = some p ∧ isWordChar p = false) ∧
    (∀ q, post.head? = some q → isWordChar q = false)

/-! ### concrete test data -/

/-- `n` repetitions of the word `w` separated (and followed) by blanks:
a string whose `str.split()` has exactly `n` words. -/
def wordsChars : Nat → List Char
  | 0 => []
  | n + 1 => 'w' :: ' ' :: wordsChars n

/-- A scripted language model that always answers with a response containing
a standalone "like", so that `no_analogies` fails on every attempt. -/
def exampleGen : Nat → String :=
  fun _ => "It behaves like water"

/-- The refined attempt the controller produces when driven by
`exampleGen`. -/
def refinedAttemptExample : Attempt :=
  { prompt := renderConstraintPrompt refinedParams
    response := "It behaves like water"
    scores := evaluate_output "It behaves like water" constraints }

/-! ### helper lemmas -/

theorem toLower_of_isWhitespace {c : Char} (h : c.isWhitespace = true) :
    c.toLower = c := by
  have hc : c = ' ' ∨ c = '\t' ∨ c = '\r' ∨ c = '\n' := by
    simpa [Char.isWhitespace, or_assoc] using h
  rcases hc with h | h | h | h <;> subst h <;> decide

theorem containsSub_iff (w : List Char) :
    ∀ l : List Char, containsSub w l = true ↔ ∃ pre post, l = pre ++ w ++ post := by
  intro l
  induction l with
  | nil =>
    simp only [containsSub, List.isEmpty_iff]
    constructor
    · rintro rfl; exact ⟨[], [], rfl⟩
    · rintro ⟨pre, post, h⟩
      exact (List.append_eq_nil.mp (List.append_eq_nil.mp h.symm).1).2
  | cons c cs ih =>
    simp only [containsSub, Bool.or_eq_true, ih, List.isPrefixOf_iff_prefix]
    constructor
    · rintro (⟨t, ht⟩ | ⟨pre, post, h⟩)
      · exact ⟨[], t, ht.symm⟩
      · exact ⟨c :: pre, post, by simp [h]⟩
    · rintro ⟨pre, post, h⟩
      cases pre with
      | nil => exact Or.inl ⟨post, by simpa using h.symm⟩
      | cons p pre' =>
        rw [List.cons_append, List.cons_append] at h
        injection h with h1 h2
        exact Or.inr ⟨pre', post, h2⟩

theorem containsSub_eq_false {c : Char} (cs : List Char) :
    ∀ l : List Char, (∀ d ∈ l, d ≠ c) → containsSub (c :: cs) l = false := by
  intro l
  induction l with
  | nil => intro _; rfl
  | cons d ds ih =>
    intro h
    have hd : (c == d) = false := by
      simp only [beq_eq_false_iff_ne, ne_eq]
      exact fun hc => h d (by simp) (hc ▸ rfl)
    simp only [containsSub, List.isPrefixOf, hd, Bool.false_and, Bool.false_or]
    exact ih fun e he => h e (by simp [he])

theorem stripCI_eq_some (w : List Char) :
    ∀ (s rest : List Char),
      stripCI w s = some rest ↔ ∃ mid, s = mid ++ rest ∧ mid.map Char.toLower = w := by
  induction w with
  | nil =>
    intro s rest
    constructor
    · intro h
      rw [stripCI] at h
      injection h with h
      exact ⟨[], by simp [h], rfl⟩
    · rintro ⟨mid, hs, hm⟩
      rw [List.map_eq_nil_iff] at hm
      subst hm
      rw [stripCI]
      simpa using hs
  | cons c cs ih =>
    intro s rest
    cases s with
    | nil =>
      constructor
      · intro h
        rw [stripCI] at h
        exact Option.noConfusion h
      · rintro ⟨mid, hs, hm⟩
        cases mid with
        | nil => simp at hm
        | cons e mid' => simp at hs
    | cons d ds =>
      constructor
      · intro h
        rw [stripCI] at h
        by_cases hdc : d.toLower = c
        · rw [if_pos hdc] at h
          obtain ⟨mid', hds, hm⟩ := (ih ds rest).mp h
          exact ⟨d :: mid', by simp [hds], by simp [hm, hdc]⟩
        · rw [if_neg hdc] at h
          exact Option.noConfusion h
      · rintro ⟨mid, hs, hm⟩
        cases mid with
        | nil => simp at hm
        | cons e mid' =>
          rw [List.cons_append] at hs
          injection hs with hs1 hs2
          rw [List.map_cons] at hm
          injection hm with hm1 hm2
          rw [stripCI, hs1, if_pos hm1]
          exact (ih ds rest).mpr ⟨mid', hs2, hm2⟩

theorem boundaryAfter_iff (l : List Char) :
    boundaryAfter l = true ↔ ∀ q, l.head? = some q → isWordChar q = false := by
  cases l with
  | nil => simp [boundaryAfter]
  | cons d ds => simp [boundaryAfter]

theorem searchWordCI_iff (w : List Char) (hw : w ≠ []) :
    ∀ (s : List Char) (atB : Bool),
      searchWordCI w atB s = true ↔ SearchSpec w atB s := by
  intro s
  induction s with
  | nil =>
    intro atB
    constructor
    · intro h
      rw [searchWordCI] at h
      exact Bool.noConfusion h
    · rintro ⟨pre, mid, post, hs, hmid, -, -⟩
      have hmidnil : mid = [] :=
        (List.append_eq_nil.mp (List.append_eq_nil.mp hs.symm).1).2
      rw [hmidnil] at hmid
      exact (hw hmid.symm).elim
  | cons d ds ih =>
    intro atB
    rw [searchWordCI]
    simp only [Bool.or_eq_true, Bool.and_eq_true]
    constructor
    · rintro (⟨hatB, hmatch⟩ | h2)
      · cases hst : stripCI w (d :: ds) with
        | none =>
          simp only [hst] at hmatch
          exact Bool.noConfusion hmatch
        | some rest =>
          simp only [hst] at hmatch
          obtain ⟨mid, hsplit, hmid⟩ := (stripCI_eq_some w _ rest).mp hst
          exact ⟨[], mid, rest, by simpa using hsplit, hmid,
                 Or.inl ⟨rfl, hatB⟩, (boundaryAfter_iff rest).mp hmatch⟩
      · obtain ⟨pre', mid, post, hds, hmid, hb, ha⟩ := (ih _).mp h2
        refine ⟨d :: pre', mid, post, by simp [hds], hmid, ?_, ha⟩
        rcases hb with ⟨hprenil, hnb⟩ | ⟨p, hp, hpw⟩
        · subst hprenil
          exact Or.inr ⟨d, by simp, by simpa using hnb⟩
        · refine Or.inr ⟨p, ?_, hpw⟩
          cases pre' with
          | nil => simp at hp
          | cons q qs => rw [List.getLast?_cons_cons]; exact hp
    · rintro ⟨pre, mid, post, hs, hmid, hb, ha⟩
      cases pre with
      | nil =>
        rcases hb with ⟨-, hatB⟩ | ⟨p, hp, -⟩
        · have hst : stripCI w (d :: ds) = some post :=
            (stripCI_eq_some w _ post).mpr ⟨mid, by simpa using hs, hmid⟩
          refine Or.inl ⟨hatB, ?_⟩
          simp only [hst]
          exact (boundaryAfter_iff post).mpr ha
        · simp at hp
      | cons p0 pre' =>
        rw [List.cons_append, List.cons_append] at hs
        injection hs with hs1 hs2
        subst hs1
        refine Or.inr ((ih _).mpr ⟨pre', mid, post, hs2, hmid, ?_, ha⟩)
        rcases hb with ⟨habs, -⟩ | ⟨p, hp, hpw⟩
        · exact absurd habs (by simp)
        · cases pre' with
          | nil =>
            have hdp : d = p := by simpa using hp
            exact Or.inl ⟨rfl, by simp [hdp, hpw]⟩
          | cons q qs =>
            rw [List.getLast?_cons_cons] at hp
            exact Or.inr ⟨p, hp, hpw⟩

theorem searchSpec_true_iff_wholeWord (w s : List Char) :
    SearchSpec w true s ↔ WholeWordCI w s := by
  constructor <;> rintro ⟨pre, mid, post, hs, hmid, hb, ha⟩ <;>
    refine ⟨pre, mid, post, hs, hmid, ?_, ha⟩
  · rcases hb with ⟨h, -⟩ | h
    exacts [Or.inl h, Or.inr h]
  · rcases hb with h | h
    exacts [Or.inl ⟨h, rfl⟩, Or.inr h]

theorem containsSub_eq_false_of_head {w l : List Char} {c : Char}
    (hhead : w.head? = some c) (hc : ∀ d ∈ l, d ≠ c) :
    containsSub w l = false := by
  cases w with
  | nil => exact Option.noConfusion hhead
  | cons e es =>
    injection hhead with he
    subst he
    exact containsSub_eq_false es l hc

theorem searchWordCI_eq_false {c : Char} (cs : List Char) :
    ∀ (l : List Char) (atB : Bool), (∀ d ∈ l, d.toLower ≠ c) →
      searchWordCI (c :: cs) atB l = false := by
  intro l
  induction l with
  | nil => intro _ _; rfl
  | cons d ds ih =>
    intro atB h
    have hd : ¬ d.toLower = c := h d (by simp)
    have hst : stripCI (c :: cs) (d :: ds) = none := by
      rw [stripCI, if_neg hd]
    rw [searchWordCI]
    simp only [hst, Bool.and_false, Bool.false_or]
    exact ih _ fun e he => h e (by simp [he])

theorem searchWordCI_eq_false_of_head {w l : List Char} {c : Char}
    (hhead : w.head? = some c) (hc : ∀ d ∈ l, d.toLower ≠ c) (atB : Bool) :
    searchWordCI w atB l = false := by
  cases w with
  | nil => exact Option.noConfusion hhead
  | cons e es =>
    injection hhead with he
    subst he
    exact searchWordCI_eq_false es l atB hc

theorem splitWordsAux_nil_of_ws :
    ∀ l : List Char, (∀ c ∈ l, c.isWhitespace = true) → splitWordsAux [] l = [] := by
  intro l
  induction l with
  | nil => intro _; rfl
  | cons c cs ih =>
    intro h
    have hc : c.isWhitespace = true := h c (by simp)
    simp only [splitWordsAux, hc, if_true, List.isEmpty_nil]
    exact ih fun e he => h e (by simp [he])

theorem splitWords_eq_nil {l : List Char} (h : ∀ c ∈ l, c.isWhitespace = true) :
    splitWords l = [] :=
  splitWordsAux_nil_of_ws l h

theorem splitWords_wordsChars : ∀ n, splitWords (wordsChars n) = List.replicate n ['w'] := by
  intro n
  induction n with
  | zero => rfl
  | succ n ih =>
    show splitWordsAux [] ('w' :: ' ' :: wordsChars n) = _
    rw [splitWordsAux, if_neg (by decide), splitWordsAux, if_pos (by decide),
        if_neg (by decide), List.replicate_succ]
    exact congrArg _ ih

/-! ### claim theorems -/

/-- C1: the refinement step is triggered exactly when some constraint of the
initial evaluation is false.  When every constraint passes, no refined prompt
is built, no second generation happens and one generation call is issued;
when any constraint fails, the controller performs exactly one refined
render–generate–evaluate cycle, issuing a second generation call. -/
theorem refinement_trigger (gen : Nat → String) :
    ((runNegativePromptCycle gen).initial.scores = evaluate_output (gen 0) constraints)
    ∧ ((runNegativePromptCycle gen).refined.isSome
        = !allPass (evaluate_output (gen 0) constraints))
    ∧ ((runNegativePromptCycle gen).refined
        = if allPass (evaluate_output (gen 0) constraints) then none
          else some ⟨renderConstraintPrompt refinedParams, gen 1,
                     evaluate_output (gen 1) constraints⟩)
    ∧ ((runNegativePromptCycle gen).genCalls
        = if allPass (evaluate_output (gen 0) constraints) then 1 else 2) := by
  by_cases hp : allPass (evaluate_output (gen 0) constraints) = true
  · simp [runNegativePromptCycle, hp]
  · simp [runNegativePromptCycle, hp]

set_option maxRecDepth 8192 in
/-- C2: for every model behaviour, at most two generation calls are issued
and at most two attempts (one refinement) are performed; in particular for a
scripted model whose refined response still violates a constraint, the
controller still stops after two calls — there is never a third cycle. -/
theorem bounded_refinement (gen : Nat → String) :
    (runNegativePromptCycle gen).genCalls ≤ 2
    ∧ (runNegativePromptCycle gen).attemptCount ≤ 2
    ∧ (runNegativePromptCycle exampleGen).refined.map (fun a => allPass a.scores)
        = some false
    ∧ (runNegativePromptCycle exampleGen).genCalls = 2 := by
  refine ⟨?_, ?_, by decide, by decide⟩ <;>
    by_cases hp : allPass (evaluate_output (gen 0) constraints) = true <;>
      simp [runNegativePromptCycle, CycleResult.attemptCount, hp]

/-- C3: `no_excluded_words` is true exactly when no configured forbidden word
occurs as a case-insensitive substring of the response; an occurrence
differing only in case ("This uses a Robot." against forbidden "robot")
makes it false, and a response with no forbidden substring makes it true. -/
theorem no_excluded_words_correct :
    (∀ x : String, no_excluded_words x = true ↔
        ∀ w ∈ excludedWords, ¬ CISubstrOccurs w x)
    ∧ no_excluded_words "This uses a Robot." = false
    ∧ no_excluded_words "No forbidden content here." = true := by
  refine ⟨fun x => ?_, by decide, by decide⟩
  rw [no_excluded_words, List.all_eq_true]
  refine forall_congr' fun w => imp_congr_right fun hw => ?_
  have hlow : lowerList w.data = w.data := by
    simp only [excludedWords, List.mem_cons, List.not_mem_nil, or_false] at hw
    rcases hw with rfl | rfl | rfl <;> decide
  rw [Bool.not_eq_true', CISubstrOccurs, hlow, ← Bool.not_eq_true, containsSub_iff]

/-- C4: `no_analogies` is true exactly when the response has no whole-word,
case-insensitive occurrence of "as" or "like" under word-boundary matching;
"It behaves like water" evaluates false while "Likewise, it performs well"
evaluates true, since "like" inside "Likewise" is not a whole-word match. -/
theorem no_analogies_correct :
    (∀ x : String, no_analogies x = true ↔
        ¬ WholeWordCI ['a', 's'] x.data ∧ ¬ WholeWordCI ['l', 'i', 'k', 'e'] x.data)
    ∧ no_analogies "It behaves like water" = false
    ∧ no_analogies "Likewise, it performs well" = true := by
  refine ⟨fun x => ?_, by decide, by decide⟩
  rw [no_analogies, hasWholeWordCI, hasWholeWordCI,
      (by decide : lowerList "as".data = ['a', 's']),
      (by decide : lowerList "like".data = ['l', 'i', 'k', 'e']),
      Bool.not_eq_true', Bool.or_eq_false_iff,
      ← Bool.not_eq_true (searchWordCI ['a', 's'] true x.data),
      ← Bool.not_eq_true (searchWordCI ['l', 'i', 'k', 'e'] true x.data),
      searchWordCI_iff ['a', 's'] (by decide) x.data true,
      searchWordCI_iff ['l', 'i', 'k', 'e'] (by decide) x.data true,
      searchSpec_true_iff_wholeWord, searchSpec_true_iff_wholeWord]

/-- C5: `word_count` is true exactly when the whitespace-delimited word count
of the response is at most 100; a response of exactly 100 words evaluates
true and a response of 101 words evaluates false. -/
theorem word_count_correct :
    (∀ x : String, word_count x = true ↔ (splitWords x.data).length ≤ 100)
    ∧ (splitWords (wordsChars 100)).length = 100
    ∧ word_count (String.mk (wordsChars 100)) = true
    ∧ (splitWords (wordsChars 101)).length = 101
    ∧ word_count (String.mk (wordsChars 101)) = false := by
  have hlen : ∀ n, (splitWords (wordsChars n)).length = n := by
    intro n
    rw [splitWords_wordsChars, List.length_replicate]
  have hiff : ∀ x : String, word_count x = true ↔ (splitWords x.data).length ≤ 100 := by
    intro x
    rw [word_count]
    exact decide_eq_true_iff
  refine ⟨hiff, hlen 100, ?_, hlen 101, ?_⟩
  · rw [hiff, show (String.mk (wordsChars 100)).data = wordsChars 100 from rfl, hlen 100]
  · rw [Bool.eq_false_iff]
    intro h
    rw [hiff, show (String.mk (wordsChars 101)).data = wordsChars 101 from rfl, hlen 101] at h
    exact absurd h (by decide)

/-- C6: for every response string (the empty string included) and every
constraint set, `evaluate_output` returns one boolean entry per constraint,
with keys exactly the constraint names and no missing or extra entries;
for the canonical constraint set the keys are the three predicate names. -/
theorem evaluate_output_shape (r : String) (cs : ConstraintSet) :
    (evaluate_output r cs).map Prod.fst = cs.map Prod.fst
    ∧ (evaluate_output r cs).length = cs.length
    ∧ (evaluate_output r constraints).map Prod.fst
        = ["word_count", "no_excluded_words", "no_analogies"] := by
  refine ⟨?_, ?_, rfl⟩ <;> simp [evaluate_output]

/-- C7: whenever refinement is triggered, the refined prompt is rendered from
the base parameters with the excluded-words slot extended by "like, as" and
the style slot extended by "concise", the topic unchanged — one fixed
deterministic adjustment. -/
theorem refined_prompt_shape (gen : Nat → String) (a : Attempt)
    (h : (runNegativePromptCycle gen).refined = some a) :
    a.prompt = renderConstraintPrompt refinedParams
    ∧ a.response = gen 1
    ∧ a.scores = evaluate_output (gen 1) constraints
    ∧ refinedParams.topic = baseParams.topic
    ∧ refinedParams.style = baseParams.style ++ " and concise"
    ∧ refinedParams.excluded_words = baseParams.excluded_words ++ ", like, as" := by
  by_cases hp : allPass (evaluate_output (gen 0) constraints) = true
  · simp [runNegativePromptCycle, hp] at h
  · simp only [runNegativePromptCycle, if_neg hp, Option.some.injEq] at h
    rw [← h]
    exact ⟨rfl, rfl, rfl, rfl, by decide, by decide⟩

set_option maxRecDepth 8192 in
/-- Witness for C7: the controller driven by `exampleGen` triggers refinement
and produces exactly `refinedAttemptExample`. -/
theorem refined_prompt_shape_witness :
    refinedAttemptExample.prompt = renderConstraintPrompt refinedParams
    ∧ refinedAttemptExample.response = exampleGen 1
    ∧ refinedAttemptExample.scores = evaluate_output (exampleGen 1) constraints
    ∧ refinedParams.topic = baseParams.topic
    ∧ refinedParams.style = baseParams.style ++ " and concise"
    ∧ refinedParams.excluded_words = baseParams.excluded_words ++ ", like, as" :=
  refined_prompt_shape exampleGen refinedAttemptExample (by decide)

/-- C8: the constraint set is the same in the initial and refined
evaluations — both score against `constraints`, with identical key lists —
and "like" and "as", though appended to the excluded-words prompt slot, are
not in the forbidden-word list, so `no_excluded_words` never checks them: a
response containing standalone "like" and "as" still passes it. -/
theorem constraint_set_fixed (gen : Nat → String) (a : Attempt)
    (h : (runNegativePromptCycle gen).refined = some a) :
    a.scores = evaluate_output a.response constraints
    ∧ (runNegativePromptCycle gen).initial.scores
        = evaluate_output ((runNegativePromptCycle gen).initial.response) constraints
    ∧ a.scores.map Prod.fst = (runNegativePromptCycle gen).initial.scores.map Prod.fst
    ∧ "like" ∉ excludedWords
    ∧ "as" ∉ excludedWords
    ∧ no_excluded_words "I like it as well" = true := by
  by_cases hp : allPass (evaluate_output (gen 0) constraints) = true
  · simp [runNegativePromptCycle, hp] at h
  · have hinit : (runNegativePromptCycle gen).initial.scores
        = evaluate_output (gen 0) constraints := by
      simp [runNegativePromptCycle, hp]
    have hresp : (runNegativePromptCycle gen).initial.response = gen 0 := by
      simp [runNegativePromptCycle, hp]
    simp only [runNegativePromptCycle, if_neg hp, Option.some.injEq] at h
    rw [← h]
    refine ⟨rfl, ?_, ?_, by decide, by decide, by decide⟩
    · rw [hinit, hresp]
    · rw [hinit]
      simp [evaluate_output, List.map_map, Function.comp]

set_option maxRecDepth 8192 in
/-- Witness for C8: instantiated at the scripted model `exampleGen`, whose
initial response fails `no_analogies` and so triggers refinement. -/
theorem constraint_set_fixed_witness :
    refinedAttemptExample.scores
        = evaluate_output refinedAttemptExample.response constraints
    ∧ (runNegativePromptCycle exampleGen).initial.scores
        = evaluate_output ((runNegativePromptCycle exampleGen).initial.response) constraints
    ∧ refinedAttemptExample.scores.map Prod.fst
        = (runNegativePromptCycle exampleGen).initial.scores.map Prod.fst
    ∧ "like" ∉ excludedWords
    ∧ "as" ∉ excludedWords
    ∧ no_excluded_words "I like it as well" = true :=
  constraint_set_fixed exampleGen refinedAttemptExample (by decide)

/-- C9: every whitespace-only response (the empty string included) satisfies
all three canonical constraints: its word count is 0, it contains no
forbidden substring, and it contains no whole-word "as" or "like", so the
evaluator scores it fully compliant. -/
theorem whitespace_response_passes (s : String)
    (h : ∀ c ∈ s.data, c.isWhitespace = true) :
    evaluate_output s constraints =
      [("word_count", true), ("no_excluded_words", true), ("no_analogies", true)] := by
  have h1 : word_count s = true := by
    rw [word_count]
    rw [splitWords_eq_nil h]
    decide
  have h2 : no_excluded_words s = true := by
    rw [no_excluded_words, List.all_eq_true]
    intro w hw
    have hmem : ∀ d ∈ lowerList s.data, d.isWhitespace = true := by
      intro d hd
      obtain ⟨e, he, rfl⟩ := List.mem_map.mp hd
      rw [toLower_of_isWhitespace (h e he)]
      exact h e he
    have key : ∀ c : Char, c.isWhitespace = false → ∀ d ∈ lowerList s.data, d ≠ c := by
      intro c hcw d hd hdc
      rw [hdc] at hd
      rw [hmem c hd] at hcw
      exact Bool.noConfusion hcw
    simp only [excludedWords, List.mem_cons, List.not_mem_nil, or_false] at hw
    rcases hw with rfl | rfl | rfl
    · rw [Bool.not_eq_true',
          containsSub_eq_false_of_head (c := 'r') (by decide) (key 'r' (by decide))]
    · rw [Bool.not_eq_true',
          containsSub_eq_false_of_head (c := 'h') (by decide) (key 'h' (by decide))]
    · rw [Bool.not_eq_true',
          containsSub_eq_false_of_head (c := 's') (by decide) (key 's' (by decide))]
  have h3 : no_analogies s = true := by
    have key : ∀ c : Char, c.isWhitespace = false → ∀ d ∈ s.data, d.toLower ≠ c := by
      intro c hcw d hd hdc
      rw [toLower_of_isWhitespace (h d hd)] at hdc
      rw [hdc] at hd
      rw [h c hd] at hcw
      exact Bool.noConfusion hcw
    rw [no_analogies, hasWholeWordCI, hasWholeWordCI,
        searchWordCI_eq_false_of_head (c := 'a') (by decide) (key 'a' (by decide)) true,
        searchWordCI_eq_false_of_head (c := 'l') (by decide) (key 'l' (by decide)) true]
    rfl
  show [("word_count", word_count s), ("no_excluded_words", no_excluded_words s),
        ("no_analogies", no_analogies s)] = _
  rw [h1, h2, h3]

/-- Witness for C9: the empty response and a response of blanks, a tab and a
newline are scored fully compliant. -/
theorem whitespace_response_passes_witness :
    (evaluate_output "" constraints =
      [("word_count", true), ("no_excluded_words", true), ("no_analogies", true)])
    ∧ (evaluate_output " \t\n" constraints =
      [("word_count", true), ("no_excluded_words", true), ("no_analogies", true)]) :=
  ⟨whitespace_response_passes "" (by decide),
   whitespace_response_passes " \t\n" (by decide)⟩

/-- C10: `evaluate_output` is deterministic: two invocations with equal
response strings and equal constraint sets return equal evaluation results.
In this embedding all data are immutable values, so an invocation cannot
mutate the response or the constraint mapping. -/
theorem evaluate_output_deterministic (r1 r2 : String) (cs1 cs2 : ConstraintSet)
    (h1 : r1 = r2) (h2 : cs1 = cs2) :
    evaluate_output r1 cs1 = evaluate_output r2 cs2 := by
  rw [h1, h2]

/-- Witness for C10: two invocations on the same concrete response and the
canonical constraint set agree. -/
theorem evaluate_output_deterministic_witness :
    evaluate_output "Sample response" constraints
      = evaluate_output "Sample response" constraints :=
  evaluate_output_deterministic "Sample response" "Sample response"
    constraints constraints rfl rfl

end NegativePrompting
